import Mathlib

set_option maxRecDepth 16384

/-!
Shallow embedding of the `unzip` repository (Python) in Lean 4.

File names and paths are modelled as lists of characters (`Name`), file
contents as lists of byte values (`List Nat`, each `< 256`), and the
filesystem pieces each function touches are passed explicitly.  Each
definition is translated from one function of the source:

* `src/src/utils/file_helper.py` — `get_file_header`;
* `src/src/core/archive.py` — `detect_archive_type`, `extract_archive`;
* `src/src/core/unzip_service.py` — `_prepare_archive_info`,
  `_is_multipart_archive`, `_extract_to_target_temp`,
  `_collect_multipart_archive`, `_process_unzip_temp_archives`,
  `_move_to_target`, `_collect_archive_files`, `_is_all_processed`,
  `_generate_folder_name`, `_get_path_id`.
-/

abbrev Name := List Char

/-- Python `str.lower()` restricted to the ASCII names used here. -/
def lowerName (n : Name) : Name := n.map Char.toLower

/-- Python `pat in s` (substring containment). -/
def containsSub : Name → Name → Bool
  | pat, s =>
    pat.isPrefixOf s ||
      (match s with
       | [] => false
       | _ :: t => containsSub pat t)

/-- Start positions (ascending) of every occurrence of `pat` in `s`. -/
def subIndices (pat : Name) : Name → List Nat
  | [] => if pat.isPrefixOf ([] : Name) then [0] else []
  | s@(_ :: t) =>
    (if pat.isPrefixOf s then [0] else []) ++ (subIndices pat t).map (· + 1)

/-- Python `s.index(pat)`: first occurrence, `none` models `ValueError`. -/
def subIndexOf (pat s : Name) : Option Nat := (subIndices pat s).head?

/-- Python `s.rindex(pat)`: last occurrence, `none` models `ValueError`. -/
def subRindexOf (pat s : Name) : Option Nat := (subIndices pat s).getLast?

/-- Python `str(n)` for a natural number. -/
def natStr (n : Nat) : Name := Nat.toDigits 10 n

/-- Python `s.zfill(3)`. -/
def zfill3 (s : Name) : Name := List.replicate (3 - s.length) '0' ++ s

/-- `pathlib.PurePath.stem`: the final component without its last suffix
(CPython keeps the name unchanged unless the last dot sits strictly inside
the name). -/
def pyStem (n : Name) : Name :=
  match n.reverse.findIdx? (fun c => c = '.') with
  | none => n
  | some j =>
    let i := n.length - 1 - j
    if 0 < i ∧ i < n.length - 1 then n.take i else n

/-- Lexicographic comparison of names (Python `<=` on strings / paths that
differ only in the final component). -/
def lexLe : Name → Name → Bool
  | [], _ => true
  | _ :: _, [] => false
  | a :: as, b :: bs =>
    if a < b then true else if b < a then false else lexLe as bs

/-- The ordering relation used for Python `sorted` / `list.sort`. -/
def LexLe (a b : Name) : Prop := lexLe a b = true

instance : DecidableRel LexLe := fun a b => by
  unfold LexLe; infer_instance

instance : IsTrans Name LexLe := by
  constructor
  intro x
  unfold LexLe
  induction x with
  | nil => intro y z _ _; rfl
  | cons a as ih =>
    intro y z hxy hyz
    cases y with
    | nil => simp [lexLe] at hxy
    | cons b bs =>
      cases z with
      | nil => simp [lexLe] at hyz
      | cons c cs =>
        simp only [lexLe] at hxy hyz ⊢
        by_cases hab : a < b
        · by_cases hbc : b < c
          · rw [if_pos (lt_trans hab hbc)]
          · by_cases hcb : c < b
            · rw [if_neg hbc, if_pos hcb] at hyz
              cases hyz
            · have hbceq : b = c := le_antisymm (not_lt.mp hcb) (not_lt.mp hbc)
              rw [if_pos (hbceq ▸ hab)]
        · by_cases hba : b < a
          · rw [if_neg hab, if_pos hba] at hxy
            cases hxy
          · have habeq : a = b := le_antisymm (not_lt.mp hba) (not_lt.mp hab)
            rw [if_neg hab, if_neg hba] at hxy
            by_cases hbc : b < c
            · rw [if_pos (habeq ▸ hbc)]
            · by_cases hcb : c < b
              · rw [if_neg hbc, if_pos hcb] at hyz
                cases hyz
              · have hbceq : b = c := le_antisymm (not_lt.mp hcb) (not_lt.mp hbc)
                rw [if_neg hbc, if_neg hcb] at hyz
                have hac : ¬ a < c := hbceq ▸ habeq ▸ lt_irrefl a
                have hca : ¬ c < a := hbceq ▸ habeq ▸ lt_irrefl a
                rw [if_neg hac, if_neg hca]
                exact ih bs cs hxy hyz

instance : IsTotal Name LexLe := by
  constructor
  intro x
  unfold LexLe
  induction x with
  | nil => intro y; left; rfl
  | cons a as ih =>
    intro y
    cases y with
    | nil => right; rfl
    | cons b bs =>
      simp only [lexLe]
      rcases lt_trichotomy a b with h | h | h
      · left; rw [if_pos h]
      · subst h
        simp only [if_neg (lt_irrefl a)]
        exact ih bs
      · right; rw [if_pos h]

/-! ### Header sniffing (`file_helper.get_file_header`,
`archive.detect_archive_type`, constants from `config/config.py`) -/

/-- `ArchiveType` from `src/src/core/archive.py`. -/
inductive ArchiveType
  | seven_zip
  | zip
  | rar
  | unknown
deriving DecidableEq

def hexDigitChar (k : Nat) : Char := "0123456789abcdef".toList.getD k 'x'

/-- Two lowercase hex digits for one byte (`binascii.b2a_hex`, per byte). -/
def byteHex (b : Nat) : Name := [hexDigitChar (b / 16 % 16), hexDigitChar (b % 16)]

/-- Hex string of a byte sequence (`binascii.b2a_hex(...).decode()`). -/
def bytesHex : List Nat → Name
  | [] => []
  | b :: bs => byteHex b ++ bytesHex bs

/-- `ArchiveConfig.HEADER_BYTES`. -/
def headerBytesCount : Nat := 20

/-- `FileHelper.get_file_header`: the hex string of the first 20 bytes. A
file whose contents cannot be read is `none`, and the function then
returns `none` instead of raising. -/
def getFileHeader (content : Option (List Nat)) : Option Name :=
  content.map (fun bs => bytesHex (bs.take headerBytesCount))

/-- `ArchiveConfig.SEVEN_ZIP_HEADER`. -/
def sevenZipHeaderHex : Name := "377abcaf271c".toList

/-- `ArchiveConfig.ZIP_HEADER`. -/
def zipHeaderHex : Name := "504b03".toList

/-- `ArchiveConfig.RAR_HEADER`. -/
def rarHeaderHex : Name := "526172".toList

/-- The 7-zip magic as bytes. -/
def sevenZipMagic : List Nat := [0x37, 0x7a, 0xbc, 0xaf, 0x27, 0x1c]

/-- The Zip magic as bytes. -/
def zipMagic : List Nat := [0x50, 0x4b, 0x03]

/-- The Rar magic as bytes. -/
def rarMagic : List Nat := [0x52, 0x61, 0x72]

/-- `ArchiveHandler.detect_archive_type`: hex-prefix match against the
three known magics, in order; empty or unreadable header gives
`unknown` (Python `if not header`). -/
def detectArchiveType (content : Option (List Nat)) : ArchiveType :=
  match getFileHeader content with
  | none => ArchiveType.unknown
  | some h =>
    if h.isEmpty then ArchiveType.unknown
    else if sevenZipHeaderHex.isPrefixOf h then ArchiveType.seven_zip
    else if zipHeaderHex.isPrefixOf h then ArchiveType.zip
    else if rarHeaderHex.isPrefixOf h then ArchiveType.rar
    else ArchiveType.unknown

/-! ### Multi-part naming (`UnzipService._is_multipart_archive`,
`UnzipService._collect_multipart_archive`) -/

def s7dot : Name := ".7z.".toList

def szipdot : Name := ".zip.".toList

def spart : Name := ".part".toList

def partHead : Name := "part".toList

def rarTail : Name := ".rar".toList

/-- `UnzipService._is_multipart_archive`: the name (lowercased) ends in
`.7z.NNN` or `.zip.NNN` for `NNN` in `001`–`998` (Python
`range(1, 999)`), or starts with `part` and ends with `.rar`, or merely
contains `.part`. -/
def isMultipartArchive (name : Name) : Bool :=
  let n := lowerName name
  ((List.range' 1 998).any (fun i => (s7dot ++ zfill3 (natStr i)).isSuffixOf n)) ||
  ((List.range' 1 998).any (fun i => (szipdot ++ zfill3 (natStr i)).isSuffixOf n)) ||
  (partHead.isPrefixOf n && rarTail.isSuffixOf n) ||
  containsSub spart n

/-- Base-name derivation of `UnzipService._collect_multipart_archive`
(operates on the lowercased name).  The final branch calls
`str.rindex('.part')` unconditionally, so a name containing none of the
patterns raises `ValueError` — modelled as `none`. -/
def deriveBaseName (n : Name) : Option Name :=
  if containsSub s7dot n then (subRindexOf s7dot n).map (fun i => n.take i)
  else if containsSub szipdot n then (subRindexOf szipdot n).map (fun i => n.take i)
  else if containsSub spart n && rarTail.isSuffixOf n then
    (subIndexOf spart n).map (fun i => n.take i)
  else (subRindexOf spart n).map (fun i => n.take i)

/-- The sibling filter of `UnzipService._collect_multipart_archive`. -/
def partFilterCond (base : Name) (f : Name) : Bool :=
  ((base ++ s7dot).isPrefixOf (lowerName f) ||
   (base ++ szipdot).isPrefixOf (lowerName f) ||
   (base ++ spart).isPrefixOf (lowerName f) ||
   (base.isPrefixOf (lowerName f) && containsSub spart (lowerName f))) &&
  isMultipartArchive f

/-- `UnzipService._collect_multipart_archive`: derive the base name from
the given file, filter the entries of the file's own directory
(`siblings` — the function looks nowhere else), and sort the survivors
lexicographically (`list.sort`). -/
def collectMultipartArchive (fileName : Name) (siblings : List Name) : Option (List Name) :=
  (deriveBaseName (lowerName fileName)).map
    (fun base => List.insertionSort LexLe (siblings.filter (partFilterCond base)))

/-- Fragment assembly as performed at the call site in
`UnzipService._process_unzip_temp_archives` (lines 317–327): parts start
as the file itself and are replaced by the collector's result only when
the name matches a multi-part pattern. -/
def assembleParts (fileName : Name) (siblings : List Name) : Option (List Name) :=
  if isMultipartArchive fileName then collectMultipartArchive fileName siblings
  else some [fileName]

/-! ### Grouping into archive units (`UnzipService._prepare_archive_info`,
`UnzipService._extract_to_target_temp`) -/

/-- A source file: its (final-component) name and its readable contents,
`none` when reading fails. -/
structure SFile where
  path : Name
  content : Option (List Nat)
deriving DecidableEq

/-- `ArchiveInfo` from `src/src/core/archive.py`. -/
structure ArchiveInfoM where
  path : Name
  typ : ArchiveType
  parts : List Name
  password : Name
deriving DecidableEq

/-- `file_path.stem.split('.')[0]`, the grouping key of
`_prepare_archive_info`. -/
def baseNameOf (n : Name) : Name := (pyStem n).takeWhile (fun c => c ≠ '.')

/-- Ordered-dictionary lookup (Python `base_name not in archives`). -/
def alistLookup (k : Name) : List (Name × ArchiveInfoM) → Option ArchiveInfoM
  | [] => none
  | (k', v) :: rest => if k' = k then some v else alistLookup k rest

/-- `archives[base_name].parts.append(file_path)` on the ordered dict. -/
def alistAddPart (k p : Name) : List (Name × ArchiveInfoM) → List (Name × ArchiveInfoM)
  | [] => []
  | (k', v) :: rest =>
    if k' = k then (k', { v with parts := v.parts ++ [p] }) :: rest
    else (k', v) :: alistAddPart k p rest

/-- One iteration of the loop body of `_prepare_archive_info`: a new
group is entered only when its first file's detected type is not
`UNKNOWN`; later files of an existing group are appended as parts. -/
def prepareStep (pw : Name) (archives : List (Name × ArchiveInfoM)) (f : SFile) :
    List (Name × ArchiveInfoM) :=
  let base := baseNameOf f.path
  match alistLookup base archives with
  | none =>
    let t := detectArchiveType f.content
    if t = ArchiveType.unknown then archives
    else archives ++ [(base, { path := f.path, typ := t, parts := [f.path], password := pw })]
  | some _ => alistAddPart base f.path archives

/-- `UnzipService._prepare_archive_info` (`files = sorted(files)` then the
grouping loop). -/
def prepareArchiveInfo (pw : Name) (files : List SFile) : List (Name × ArchiveInfoM) :=
  (List.insertionSort (fun a b => LexLe a.path b.path) files).foldl (prepareStep pw) []

/-- The `UNKNOWN` branch of `UnzipService._extract_to_target_temp`: for a
unit of unknown type every constituent part is copied to the outbound
staging directory unless `_is_multipart_archive` matches it (such parts
are skipped); copy failures are logged and the loop continues.  The
result lists the files for which a copy is performed.  For a recognized
type the function instead calls the Archive Extractor and copies
nothing. -/
def extractToTargetTemp (a : ArchiveInfoM) : List Name :=
  if a.typ = ArchiveType.unknown then
    a.parts.foldl (fun acc p => if isMultipartArchive p then acc else acc ++ [p]) []
  else []

/-! ### Archive extraction (`ArchiveHandler.extract_archive`) -/

/-- Outcomes of the filesystem/codec operations that
`extract_archive` performs, supplied as an oracle: whether the direct
attempt succeeds, whether `FileHelper.merge_files` succeeds, whether the
(possibly failed) merge leaves the output file on disk, and whether
extraction from the merged file succeeds. -/
structure ExtractEnv where
  directOk : Bool
  mergeOk : Bool
  mergeCreatesFile : Bool
  mergedExtractOk : Bool

/-- State threaded through the merge fallback: whether the temporary
merged file currently exists, and whether an exception is pending. -/
structure ExtSt where
  mergedExists : Bool
  raised : Bool
deriving DecidableEq

/-- `FileHelper.merge_files(archive_info.parts, merged_path)`: opening
the output with `'wb'` (usually) creates the file even when a later read
fails and the exception propagates. -/
def mergeFilesStep (env : ExtractEnv) : ExtSt :=
  { mergedExists := env.mergeOk || env.mergeCreatesFile, raised := !env.mergeOk }

/-- Extraction from the merged file; skipped when an exception is
already propagating. -/
def extractMergedStep (env : ExtractEnv) (s : ExtSt) : ExtSt :=
  if s.raised then s else { s with raised := !env.mergedExtractOk }

/-- The `finally:` block — `if merged_path.exists(): merged_path.unlink()`. -/
def finallyCleanup (s : ExtSt) : ExtSt :=
  if s.mergedExists then { s with mergedExists := false } else s

/-- The whole `try ... finally` merge fallback of `extract_archive`. -/
def fallbackBlock (env : ExtractEnv) : ExtSt :=
  finallyCleanup (extractMergedStep env (mergeFilesStep env))

/-- Result of `extract_archive`: whether it raised, whether the merged
temp file exists when it returns, and whether the merge fallback ran. -/
structure ExtractResult where
  raised : Bool
  mergedFileExists : Bool
  fallbackEntered : Bool
deriving DecidableEq

/-- `ArchiveHandler.extract_archive` for a unit with `parts` fragments:
unsupported types return quietly; a successful direct attempt returns; a
failed direct attempt re-raises when there is at most one fragment and
otherwise enters the merge fallback. -/
def extractArchive (typ : ArchiveType) (parts : Nat) (env : ExtractEnv) : ExtractResult :=
  if typ = ArchiveType.unknown then
    { raised := false, mergedFileExists := false, fallbackEntered := false }
  else if env.directOk then
    { raised := false, mergedFileExists := false, fallbackEntered := false }
  else if parts ≤ 1 then
    { raised := true, mergedFileExists := false, fallbackEntered := false }
  else
    let s := fallbackBlock env
    { raised := s.raised, mergedFileExists := s.mergedExists, fallbackEntered := true }

/-! ### The recursive extraction loop
(`UnzipService._process_unzip_temp_archives`) -/

/-- A file sitting in the inbound staging directory, as the loop sees
it: its name and whether the Header Sniffer recognizes it. -/
structure TFile where
  name : Name
  recognized : Bool
deriving DecidableEq

/-- Environment for one extraction attempt of the loop: whether
extracting this unit succeeds, and which archive files
`_move_archives_to_zip_temp` then moves back into inbound staging. -/
def UnzipEnv := TFile → Bool × List TFile

/-- Effect of the loop body on one file of the iteration's snapshot: a
recognized archive that extracts successfully is deleted and replaced by
the archives surfacing from its output; a failed extraction is logged
and the file stays (`continue`); unrecognized files stay. -/
def stepFile (env : UnzipEnv) (f : TFile) : List TFile :=
  if f.recognized then
    if (env f).1 then (env f).2 else [f]
  else [f]

/-- One iteration of the `while True:` loop of
`_process_unzip_temp_archives`: stop when the staging directory has no
files or when the snapshot contains no recognized archive
(`has_archives` stays false); otherwise produce the next directory
state. `none` means the loop broke. -/
def unzipStep (env : UnzipEnv) (files : List TFile) : Option (List TFile) :=
  if files = [] then none
  else if files.any (fun f => f.recognized) then
    some (files.flatMap (stepFile env))
  else none

/-- Iterate `unzipStep` up to `n` times; `none` once the loop breaks. -/
def unzipIter (env : UnzipEnv) : Nat → List TFile → Option (List TFile)
  | 0, s => some s
  | n + 1, s =>
    match unzipStep env s with
    | none => none
    | some s' => unzipIter env n s'

/-- The loop terminates on a starting state iff some number of
iterations reaches the break. -/
def unzipTerminates (env : UnzipEnv) (s : List TFile) : Prop :=
  ∃ n, unzipIter env n s = none

/-! ### Final relocation (`UnzipService._move_to_target`) -/

/-- A top-level entry of the outbound staging directory
(`temp3_path.iterdir()`): a plain file, or a directory given with the
relative paths of the files inside it. -/
inductive FsEntry
  | file (name : Name)
  | dir (name : Name) (files : List (List Name))
deriving DecidableEq

def FsEntry.name : FsEntry → Name
  | .file n => n
  | .dir n _ => n

/-- `FileHelper.contains_files` on the staging tree. -/
def containsFilesEntries (entries : List FsEntry) : Bool :=
  entries.any (fun e =>
    match e with
    | .file _ => true
    | .dir _ fs => !fs.isEmpty)

/-- Observable events of `_move_to_target`, in order: removing the whole
destination root, removing a colliding item, moving one top-level entry,
and writing the history record. -/
inductive MvEvent
  | wipeDst
  | wipeItem (dst : List Name)
  | move (src : Name) (dst : List Name)
  | save
deriving DecidableEq

/-- Inputs of `_move_to_target`: the configured
`MoveConfig.skip_parent_levels`, the generated folder name, whether the
destination root (`target_dir` itself when `skip_parent_levels > 0`,
else `target_dir / folder`) already exists, which per-entry target paths
already exist, and which moves succeed. -/
structure MoveParams where
  skipParentLevels : Nat
  folderName : Name
  dstExists : Bool
  itemExists : List Name → Bool
  moveOk : Name → Bool

/-- Destination (relative to the global target root) of one top-level
staging entry, from the loop body of `_move_to_target`.  When
`skip_parent_levels > 0` the relative path of the iterated entry always
has exactly one segment, so the `len(parts) > skip_levels` branch keeps
the comparison with a one-element list. -/
def entryDest (skip : Nat) (folderName : Name) (e : FsEntry) : List Name :=
  if 0 < skip then
    let parts : List Name := [e.name]
    if skip < parts.length then parts.drop skip else [e.name]
  else [folderName, e.name]

/-- The per-entry move loop of `_move_to_target`: clear a colliding
target item, then `shutil.move`; a failed move is re-raised, aborting
the loop.  Returns the events and whether it raised. -/
def moveEntries (p : MoveParams) : List FsEntry → List MvEvent × Bool
  | [] => ([], false)
  | e :: rest =>
    let dst := entryDest p.skipParentLevels p.folderName e
    let pre := if p.itemExists dst then [MvEvent.wipeItem dst] else []
    if p.moveOk e.name then
      let (tr, r) := moveEntries p rest
      (pre ++ MvEvent.move e.name dst :: tr, r)
    else (pre, true)

/-- Result of `_move_to_target`: the event trace, whether it raised, how
many history records were written, and which files previously under the
global target root survive the call. -/
structure MoveResult where
  trace : List MvEvent
  raised : Bool
  saves : Nat
  prevTargetSurvivors : List (List Name)

/-- `UnzipService._move_to_target`.  An empty staging tree returns at
once.  Otherwise the destination root — the global target root itself
when `skip_parent_levels > 0` — is recursively deleted if it exists,
recreated, the entries are moved one by one, and only after all of them
succeed is `save_history` called (once). `prevTarget` lists the files
already under the global target root before the call. -/
def moveToTarget (p : MoveParams) (entries : List FsEntry)
    (prevTarget : List (List Name)) : MoveResult :=
  if !(containsFilesEntries entries) then
    { trace := [], raised := false, saves := 0, prevTargetSurvivors := prevTarget }
  else
    let pre := if p.dstExists then [MvEvent.wipeDst] else []
    let survivors :=
      if p.dstExists then
        if 0 < p.skipParentLevels then []
        else prevTarget.filter (fun q => q.head? ≠ some p.folderName)
      else prevTarget
    let (tr, raised) := moveEntries p entries
    if raised then
      { trace := pre ++ tr, raised := true, saves := 0, prevTargetSurvivors := survivors }
    else
      { trace := pre ++ tr ++ [MvEvent.save], raised := false, saves := 1,
        prevTargetSurvivors := survivors }

/-- Final location (relative to the global target root) of every staged
file, induced by moving each top-level entry to `entryDest`
(`shutil.move` carries a directory's inner structure along unchanged). -/
def entryFileDests (skip : Nat) (folderName : Name) (e : FsEntry) : List (List Name) :=
  match e with
  | .file _ => [entryDest skip folderName e]
  | .dir _ fs => fs.map (fun r => entryDest skip folderName e ++ r)

/-- All staged files' final locations under the global target root. -/
def finalFileDests (skip : Nat) (folderName : Name) (entries : List FsEntry) : List (List Name) :=
  entries.flatMap (entryFileDests skip folderName)

/-! ### Collection and idempotence (`UnzipService._collect_archive_files`,
`_is_all_processed`, `_generate_folder_name`, `_get_path_id`) -/

/-- `DatabaseType` from `src/src/dao/base.py`. -/
inductive DatabaseType
  | loibus
  | semao
  | vamvideo
  | xlixli
deriving DecidableEq

/-- The resolution table of `_is_all_processed`, in insertion order. -/
def resolutionPairs : List (Name × Name) :=
  [("1k".toList, "1080".toList), ("1K".toList, "1080".toList),
   ("1080".toList, "1080".toList),
   ("2k".toList, "2k".toList), ("2K".toList, "2k".toList),
   ("4k".toList, "4k".toList), ("4K".toList, "4k".toList)]

/-- The set of resolutions required by a folder name (first loop of
`_is_all_processed`); modelled as an insertion-ordered duplicate-free
list. -/
def requiredResolutions (folderName : Name) : List Name :=
  resolutionPairs.foldl
    (fun acc kv =>
      if containsSub kv.1 folderName && !(acc.contains kv.2) then acc ++ [kv.2] else acc)
    []

/-- The set of required resolutions found among the folder's entries
(second loop of `_is_all_processed`). -/
def foundResolutions (required : List Name) (items : List Name) : List Name :=
  items.foldl
    (fun acc it =>
      required.foldl
        (fun acc2 r => if containsSub r it && !(acc2.contains r) then acc2 ++ [r] else acc2)
        acc)
    []

/-- `UnzipService._is_all_processed`: trivially true for every database
type except `VAMVIDEO`; for `VAMVIDEO` the generated target folder must
exist (`folder?` is its entry list, `none` when absent) and, when more
than one resolution is required, all required resolutions must be found
among its entries. -/
def isAllProcessed (db : DatabaseType) (folderName : Name)
    (folder? : Option (List Name)) : Bool :=
  if db ≠ DatabaseType.vamvideo then true
  else
    match folder? with
    | none => false
    | some items =>
      let required := requiredResolutions folderName
      if required.length ≤ 1 then true
      else
        let found := foundResolutions required items
        required.all (fun r => found.contains r) && found.all (fun r => required.contains r)

/-- `UnzipService._generate_folder_name`: `[{id}] {title}` with `/`
replaced by `_` and one trailing `.` stripped; the id itself when the
metadata lookup finds nothing. -/
def generateFolderName (idName : Name) (title? : Option Name) : Name :=
  match title? with
  | none => idName
  | some title =>
    let fn := (('[' :: idName) ++ (']' :: ' ' :: title)).map
      (fun c => if c = '/' then '_' else c)
    if fn.getLast? = some '.' then fn.dropLast else fn

/-- A top-level entry of the source root. -/
structure SrcItem where
  name : Name
  isDir : Bool
deriving DecidableEq

/-- `UnzipService._get_path_id`: the directory name, or the file stem up
to the first underscore. -/
def getPathId (it : SrcItem) : Name :=
  if it.isDir then it.name else (pyStem it.name).takeWhile (fun c => c ≠ '_')

/-- The Ledger queries used by `_collect_archive_files`. -/
structure Ledger where
  bySrc : Name → Bool
  byId : Name → Bool

/-- `UnzipService._collect_archive_files`, restricted to which items are
kept for processing: an item is skipped iff a history record exists (by
source path or by id) and `_is_all_processed` holds.  `title?` is the
metadata lookup and `targetFs` maps a folder name to its entries (`none`
when the folder does not exist). -/
def collectKeeps (db : DatabaseType) (led : Ledger) (title? : Name → Option Name)
    (targetFs : Name → Option (List Name)) (items : List SrcItem) : List SrcItem :=
  items.filter (fun it =>
    let idName := getPathId it
    let fn := generateFolderName idName (title? idName)
    !((led.bySrc it.name || led.byId idName) && isAllProcessed db fn (targetFs fn)))

/-- Ledger writes of one run, following `process_archives` →
`_process_single_id` → `_move_to_target`: each kept item contributes the
saves of its final relocation. -/
def runLedgerSaves (db : DatabaseType) (led : Ledger) (title? : Name → Option Name)
    (targetFs : Name → Option (List Name)) (items : List SrcItem)
    (staging : Name → List FsEntry) (params : Name → MoveParams)
    (prevTarget : List (List Name)) : Nat :=
  ((collectKeeps db led title? targetFs items).map
    (fun it =>
      let idName := getPathId it
      (moveToTarget (params idName) (staging idName) prevTarget).saves)).sum

/-! ## Helper lemmas -/

theorem bytesHex_append (a b : List Nat) :
    bytesHex (a ++ b) = bytesHex a ++ bytesHex b := by
  induction a with
  | nil => rfl
  | cons x xs ih => simp [bytesHex, ih]

theorem hexDigitChar_inj : ∀ a < 16, ∀ b < 16, hexDigitChar a = hexDigitChar b → a = b := by
  decide

theorem byteHex_inj {a b : Nat} (ha : a < 256) (hb : b < 256)
    (h : byteHex a = byteHex b) : a = b := by
  simp only [byteHex, List.cons.injEq, and_true] at h
  have h1 := hexDigitChar_inj (a / 16 % 16) (Nat.mod_lt _ (by omega)) (b / 16 % 16)
    (Nat.mod_lt _ (by omega)) h.1
  have h2 := hexDigitChar_inj (a % 16) (Nat.mod_lt _ (by omega)) (b % 16)
    (Nat.mod_lt _ (by omega)) h.2
  omega

theorem isPrefixOf_bytesHex_of_prefix {p bs : List Nat} (h : p <+: bs) :
    (bytesHex p).isPrefixOf (bytesHex bs) = true := by
  obtain ⟨t, rfl⟩ := h
  rw [bytesHex_append]
  exact List.isPrefixOf_iff_prefix.mpr (List.prefix_append _ _)

theorem prefix_of_isPrefixOf_bytesHex :
    ∀ (p bs : List Nat), (∀ x ∈ p, x < 256) → (∀ x ∈ bs, x < 256) →
      (bytesHex p).isPrefixOf (bytesHex bs) = true → p <+: bs := by
  intro p
  induction p with
  | nil => intro bs _ _ _; exact List.nil_prefix
  | cons a as ih =>
    intro bs hp hbs h
    cases bs with
    | nil =>
      exfalso
      simp [bytesHex, byteHex, List.isPrefixOf] at h
    | cons b bs' =>
      simp only [bytesHex, byteHex, List.cons_append, List.nil_append,
        List.isPrefixOf, Bool.and_eq_true, beq_iff_eq] at h
      obtain ⟨h1, h2, h3⟩ := h
      have hab : a = b := by
        have ha : a < 256 := hp a (by simp)
        have hb : b < 256 := hbs b (by simp)
        exact byteHex_inj ha hb (by simp [byteHex, h1, h2])
      subst hab
      have htail : as <+: bs' :=
        ih bs' (fun x hx => hp x (by simp [hx])) (fun x hx => hbs x (by simp [hx])) h3
      obtain ⟨t, ht⟩ := htail
      exact ⟨t, by rw [List.cons_append, ht]⟩

theorem detectArchiveType_some (bs : List Nat) :
    detectArchiveType (some bs) =
      (if (bytesHex (bs.take 20)).isEmpty then ArchiveType.unknown
       else if sevenZipHeaderHex.isPrefixOf (bytesHex (bs.take 20)) then ArchiveType.seven_zip
       else if zipHeaderHex.isPrefixOf (bytesHex (bs.take 20)) then ArchiveType.zip
       else if rarHeaderHex.isPrefixOf (bytesHex (bs.take 20)) then ArchiveType.rar
       else ArchiveType.unknown) := rfl

theorem detect_magic_sevenZip (rest : List Nat) :
    detectArchiveType (some (sevenZipMagic ++ rest)) = ArchiveType.seven_zip := by
  have hsplit : bytesHex ((sevenZipMagic ++ rest).take 20)
      = sevenZipHeaderHex ++ bytesHex (rest.take 14) := by
    rw [show (sevenZipMagic ++ rest).take 20 = sevenZipMagic ++ rest.take 14 from rfl,
      bytesHex_append]
    rfl
  have h1 : (sevenZipHeaderHex ++ bytesHex (rest.take 14)).isEmpty = false := rfl
  have h2 : sevenZipHeaderHex.isPrefixOf (sevenZipHeaderHex ++ bytesHex (rest.take 14)) = true :=
    List.isPrefixOf_iff_prefix.mpr (List.prefix_append _ _)
  rw [detectArchiveType_some, hsplit, h1, h2]
  rfl

theorem detect_magic_zip (rest : List Nat) :
    detectArchiveType (some (zipMagic ++ rest)) = ArchiveType.zip := by
  have hsplit : bytesHex ((zipMagic ++ rest).take 20)
      = zipHeaderHex ++ bytesHex (rest.take 17) := by
    rw [show (zipMagic ++ rest).take 20 = zipMagic ++ rest.take 17 from rfl, bytesHex_append]
    rfl
  have h1 : (zipHeaderHex ++ bytesHex (rest.take 17)).isEmpty = false := rfl
  have h7 : sevenZipHeaderHex.isPrefixOf (zipHeaderHex ++ bytesHex (rest.take 17)) = false := rfl
  have h2 : zipHeaderHex.isPrefixOf (zipHeaderHex ++ bytesHex (rest.take 17)) = true :=
    List.isPrefixOf_iff_prefix.mpr (List.prefix_append _ _)
  rw [detectArchiveType_some, hsplit, h1, h7, h2]
  rfl

theorem detect_magic_rar (rest : List Nat) :
    detectArchiveType (some (rarMagic ++ rest)) = ArchiveType.rar := by
  have hsplit : bytesHex ((rarMagic ++ rest).take 20)
      = rarHeaderHex ++ bytesHex (rest.take 17) := by
    rw [show (rarMagic ++ rest).take 20 = rarMagic ++ rest.take 17 from rfl, bytesHex_append]
    rfl
  have h1 : (rarHeaderHex ++ bytesHex (rest.take 17)).isEmpty = false := rfl
  have h7 : sevenZipHeaderHex.isPrefixOf (rarHeaderHex ++ bytesHex (rest.take 17)) = false := rfl
  have hz : zipHeaderHex.isPrefixOf (rarHeaderHex ++ bytesHex (rest.take 17)) = false := rfl
  have h2 : rarHeaderHex.isPrefixOf (rarHeaderHex ++ bytesHex (rest.take 17)) = true :=
    List.isPrefixOf_iff_prefix.mpr (List.prefix_append _ _)
  rw [detectArchiveType_some, hsplit, h1, h7, hz, h2]
  rfl

theorem magic_check_false {m bs : List Nat} (hmlt : ∀ x ∈ m, x < 256)
    (hlt : ∀ x ∈ bs, x < 256) (hnp : ¬ m <+: bs) :
    (bytesHex m).isPrefixOf (bytesHex (bs.take 20)) = false := by
  cases hc : (bytesHex m).isPrefixOf (bytesHex (bs.take 20)) with
  | false => rfl
  | true =>
    exfalso
    have hmem : ∀ x ∈ bs.take 20, x < 256 := fun x hx => hlt x ( List.take_subset _ _ hx)
    have hpre := prefix_of_isPrefixOf_bytesHex m (bs.take 20) hmlt hmem hc
    exact hnp (hpre.trans ( List.take_prefix _ _))

/-- Claim C8: `classify` reads a fixed 20-byte prefix, matches it against
the ordered magic list with first match winning, returns the correct
enum for a valid 7-zip / Zip / Rar magic prefix, returns `Unknown` when
no magic matches (in particular for a truncated or empty file), and a
read failure yields `Unknown` instead of raising. -/
theorem classify_header_sniffing :
    detectArchiveType none = ArchiveType.unknown ∧
    detectArchiveType (some []) = ArchiveType.unknown ∧
    (∀ rest : List Nat,
      detectArchiveType (some (sevenZipMagic ++ rest)) = ArchiveType.seven_zip) ∧
    (∀ rest : List Nat, detectArchiveType (some (zipMagic ++ rest)) = ArchiveType.zip) ∧
    (∀ rest : List Nat, detectArchiveType (some (rarMagic ++ rest)) = ArchiveType.rar) ∧
    (∀ bs : List Nat, (∀ x ∈ bs, x < 256) →
      ¬ sevenZipMagic <+: bs → ¬ zipMagic <+: bs → ¬ rarMagic <+: bs →
      detectArchiveType (some bs) = ArchiveType.unknown) ∧
    (∀ bs : List Nat, detectArchiveType (some bs) = detectArchiveType (some (bs.take 20))) := by
  refine ⟨rfl, rfl, detect_magic_sevenZip, detect_magic_zip, detect_magic_rar, ?_, ?_⟩
  · intro bs hlt h7 hz hr
    rcases bs with _ | ⟨b, t⟩
    · rfl
    · have hne : (bytesHex ((b :: t).take 20)).isEmpty = false := rfl
      have c7 : sevenZipHeaderHex.isPrefixOf (bytesHex ((b :: t).take 20)) = false :=
        magic_check_false (m := sevenZipMagic) (by decide) hlt h7
      have cz : zipHeaderHex.isPrefixOf (bytesHex ((b :: t).take 20)) = false :=
        magic_check_false (m := zipMagic) (by decide) hlt hz
      have cr : rarHeaderHex.isPrefixOf (bytesHex ((b :: t).take 20)) = false :=
        magic_check_false (m := rarMagic) (by decide) hlt hr
      rw [detectArchiveType_some, hne, c7, cz, cr]
      rfl
  · intro bs
    rw [detectArchiveType_some, detectArchiveType_some, List.take_take, min_self]

/-- Witness for C8: the no-match clause at the concrete two-byte file
`0x61 0x62` and the positive 7-zip clause at a one-byte tail. -/
theorem classify_header_sniffing_witness :
    detectArchiveType (some [0x61, 0x62]) = ArchiveType.unknown ∧
    detectArchiveType (some (sevenZipMagic ++ [0x00])) = ArchiveType.seven_zip :=
  ⟨classify_header_sniffing.2.2.2.2.2.1 [0x61, 0x62] (by decide) (by decide) (by decide)
      (by decide),
   classify_header_sniffing.2.2.1 [0x00]⟩

/-- Claim C4: whenever the merge fallback of `extract_archive` runs, the
temporary merged file no longer exists when the call returns, whether
the merge-path extraction succeeded or raised. -/
theorem merged_file_removed_after_fallback (typ : ArchiveType) (parts : Nat)
    (env : ExtractEnv) (_h : (extractArchive typ parts env).fallbackEntered = true) :
    (extractArchive typ parts env).mergedFileExists = false := by
  have hf : (fallbackBlock env).mergedExists = false := by
    unfold fallbackBlock finallyCleanup extractMergedStep mergeFilesStep
    cases hm : env.mergeOk <;> cases hc : env.mergeCreatesFile <;> simp
  unfold extractArchive
  split
  · rfl
  · split
    · rfl
    · split
      · rfl
      · exact hf

/-- Witness for C4: a two-fragment unit whose direct attempt fails, the
merge succeeds, and the merged-file extraction fails. -/
theorem merged_file_removed_after_fallback_witness :
    (extractArchive ArchiveType.zip 2
      { directOk := false, mergeOk := true, mergeCreatesFile := true,
        mergedExtractOk := false }).fallbackEntered = true ∧
    (extractArchive ArchiveType.zip 2
      { directOk := false, mergeOk := true, mergeCreatesFile := true,
        mergedExtractOk := false }).mergedFileExists = false :=
  ⟨rfl, merged_file_removed_after_fallback ArchiveType.zip 2
    { directOk := false, mergeOk := true, mergeCreatesFile := true,
      mergedExtractOk := false } rfl⟩

/-- Claim C7: for a recognized unit with at most one fragment a failed
direct attempt re-raises at once and the merge fallback never runs; the
fallback runs only for units with more than one fragment. -/
theorem single_fragment_propagates (typ : ArchiveType) (parts : Nat) (env : ExtractEnv) :
    (typ ≠ ArchiveType.unknown → parts ≤ 1 → env.directOk = false →
      (extractArchive typ parts env).raised = true ∧
      (extractArchive typ parts env).fallbackEntered = false) ∧
    ((extractArchive typ parts env).fallbackEntered = true → 1 < parts) := by
  constructor
  · intro htyp hparts hdirect
    unfold extractArchive
    rw [if_neg htyp, hdirect, if_neg (by simp), if_pos hparts]
    exact ⟨rfl, rfl⟩
  · intro h
    unfold extractArchive at h
    split at h
    · simp at h
    · split at h
      · simp at h
      · split at h
        · simp at h
        · omega

/-- Witness for C7: a one-fragment Rar unit whose direct attempt fails. -/
theorem single_fragment_propagates_witness :
    (extractArchive ArchiveType.rar 1
      { directOk := false, mergeOk := true, mergeCreatesFile := true,
        mergedExtractOk := true }).raised = true ∧
    (extractArchive ArchiveType.rar 1
      { directOk := false, mergeOk := true, mergeCreatesFile := true,
        mergedExtractOk := true }).fallbackEntered = false :=
  (single_fragment_propagates ArchiveType.rar 1
    { directOk := false, mergeOk := true, mergeCreatesFile := true,
      mergedExtractOk := true }).1 (by decide) (by decide) rfl

theorem moveEntries_complete (p : MoveParams) :
    ∀ entries : List FsEntry, (moveEntries p entries).2 = false →
      ∀ e ∈ entries,
        MvEvent.move e.name (entryDest p.skipParentLevels p.folderName e) ∈
          (moveEntries p entries).1 := by
  intro entries
  induction entries with
  | nil => intro _ e he; simp at he
  | cons e' rest ih =>
    intro hr e he
    by_cases hok : p.moveOk e'.name = true
    · have hrest : (moveEntries p rest).2 = false := by
        simp only [moveEntries, hok, if_true] at hr
        exact hr
      rcases List.mem_cons.mp he with he | he
      · subst he
        simp [moveEntries, hok]
      · have hmem := ih hrest e he
        simp only [moveEntries, hok, if_true]
        simp only [List.mem_append, List.mem_cons]
        right; right
        exact hmem
    · exfalso
      rw [Bool.not_eq_true] at hok
      simp [moveEntries, hok] at hr

theorem moveEntries_allOk (p : MoveParams) :
    ∀ entries : List FsEntry, (∀ e ∈ entries, p.moveOk e.name = true) →
      (moveEntries p entries).2 = false := by
  intro entries
  induction entries with
  | nil => intro _; rfl
  | cons e' rest ih =>
    intro hall
    have hok := hall e' (by simp)
    simp only [moveEntries, hok, if_true]
    exact ih (fun e he => hall e (by simp [he]))

theorem moveToTarget_empty (p : MoveParams) (entries : List FsEntry)
    (prevTarget : List (List Name)) (hcf : containsFilesEntries entries = false) :
    moveToTarget p entries prevTarget =
      { trace := [], raised := false, saves := 0, prevTargetSurvivors := prevTarget } := by
  unfold moveToTarget
  simp [hcf]

theorem moveToTarget_raised (p : MoveParams) (entries : List FsEntry)
    (prevTarget : List (List Name)) (tr : List MvEvent)
    (hcf : containsFilesEntries entries = true) (hme : moveEntries p entries = (tr, true)) :
    moveToTarget p entries prevTarget =
      { trace := (if p.dstExists then [MvEvent.wipeDst] else []) ++ tr, raised := true,
        saves := 0,
        prevTargetSurvivors :=
          if p.dstExists then
            if 0 < p.skipParentLevels then []
            else prevTarget.filter (fun q => q.head? ≠ some p.folderName)
          else prevTarget } := by
  unfold moveToTarget
  rw [hcf]
  simp [hme]

theorem moveToTarget_ok (p : MoveParams) (entries : List FsEntry)
    (prevTarget : List (List Name)) (tr : List MvEvent)
    (hcf : containsFilesEntries entries = true) (hme : moveEntries p entries = (tr, false)) :
    moveToTarget p entries prevTarget =
      { trace := ((if p.dstExists then [MvEvent.wipeDst] else []) ++ tr) ++ [MvEvent.save],
        raised := false, saves := 1,
        prevTargetSurvivors :=
          if p.dstExists then
            if 0 < p.skipParentLevels then []
            else prevTarget.filter (fun q => q.head? ≠ some p.folderName)
          else prevTarget } := by
  unfold moveToTarget
  rw [hcf]
  simp [hme]

/-- Claim C5: a history record is written only after every staged entry
has been moved; a raise during the move loop means no record; at most one
record per call; and a fully successful relocation of a non-empty tree
writes exactly one record. -/
theorem history_record_after_relocation (p : MoveParams) (entries : List FsEntry)
    (prevTarget : List (List Name)) :
    ((moveToTarget p entries prevTarget).saves ≤ 1) ∧
    ((moveToTarget p entries prevTarget).saves = 1 →
      (moveToTarget p entries prevTarget).raised = false ∧
      ∀ e ∈ entries,
        MvEvent.move e.name (entryDest p.skipParentLevels p.folderName e) ∈
          (moveToTarget p entries prevTarget).trace) ∧
    ((moveToTarget p entries prevTarget).raised = true →
      (moveToTarget p entries prevTarget).saves = 0) ∧
    (containsFilesEntries entries = true → (∀ e ∈ entries, p.moveOk e.name = true) →
      (moveToTarget p entries prevTarget).saves = 1) := by
  by_cases hcf : containsFilesEntries entries = true
  · rcases hme : moveEntries p entries with ⟨tr, r⟩
    cases r
    · rw [moveToTarget_ok p entries prevTarget tr hcf hme]
      refine ⟨by simp, fun _ => ⟨rfl, ?_⟩, by simp, fun _ _ => rfl⟩
      intro e he
      have hmem := moveEntries_complete p entries (by rw [hme]) e he
      rw [hme] at hmem
      simp only [List.mem_append]
      left; right
      exact hmem
    · rw [moveToTarget_raised p entries prevTarget tr hcf hme]
      refine ⟨by simp, by simp, fun _ => rfl, fun _ hall => ?_⟩
      exfalso
      have hfalse := moveEntries_allOk p entries hall
      rw [hme] at hfalse
      simp at hfalse
  · rw [Bool.not_eq_true] at hcf
    rw [moveToTarget_empty p entries prevTarget hcf]
    exact ⟨by simp, by simp, fun _ => rfl, fun hc _ => by rw [hcf] at hc; cases hc⟩

/-- Witness for C5: one file entry, the move succeeds, so exactly one
record is written. -/
theorem history_record_after_relocation_witness :
    (moveToTarget
      { skipParentLevels := 0, folderName := "nm".toList, dstExists := false,
        itemExists := fun _ => false, moveOk := fun _ => true }
      [FsEntry.file ("a.txt".toList)] []).saves = 1 :=
  (history_record_after_relocation
    { skipParentLevels := 0, folderName := "nm".toList, dstExists := false,
      itemExists := fun _ => false, moveOk := fun _ => true }
    [FsEntry.file ("a.txt".toList)] []).2.2.2 (by decide) (fun _ _ => rfl)

/-- Claim C10: when final relocation runs with `skip_parent_levels > 0`
on a non-empty staging tree and the global target root exists, the first
thing that happens is the recursive deletion of the whole target root —
before any file is moved — and nothing previously under the target root
survives the call. -/
theorem target_root_wiped_before_moves (p : MoveParams) (entries : List FsEntry)
    (prevTarget : List (List Name)) (hskip : 0 < p.skipParentLevels)
    (hcf : containsFilesEntries entries = true) (hex : p.dstExists = true) :
    (moveToTarget p entries prevTarget).trace.head? = some MvEvent.wipeDst ∧
    (moveToTarget p entries prevTarget).prevTargetSurvivors = [] := by
  rcases hme : moveEntries p entries with ⟨tr, r⟩
  cases r
  · rw [moveToTarget_ok p entries prevTarget tr hcf hme]
    simp [hex, hskip]
  · rw [moveToTarget_raised p entries prevTarget tr hcf hme]
    simp [hex, hskip]

/-- Witness for C10: `skip_parent_levels = 1`, one staged file, an
existing target root holding one previously relocated file. -/
theorem target_root_wiped_before_moves_witness :
    (moveToTarget
      { skipParentLevels := 1, folderName := "nm".toList, dstExists := true,
        itemExists := fun _ => false, moveOk := fun _ => true }
      [FsEntry.file ("a.txt".toList)] [["old".toList]]).trace.head? =
        some MvEvent.wipeDst ∧
    (moveToTarget
      { skipParentLevels := 1, folderName := "nm".toList, dstExists := true,
        itemExists := fun _ => false, moveOk := fun _ => true }
      [FsEntry.file ("a.txt".toList)] [["old".toList]]).prevTargetSurvivors = [] :=
  target_root_wiped_before_moves
    { skipParentLevels := 1, folderName := "nm".toList, dstExists := true,
      itemExists := fun _ => false, moveOk := fun _ => true }
    [FsEntry.file ("a.txt".toList)] [["old".toList]] (by decide) (by decide) rfl

/-- Claim C2 (divergence witness): with `skip_parent_levels = 1` the
staged file `outer/inner/file.txt` lands at target-root
`outer/inner/file.txt` — the whole top-level entry is moved, no inner
segment is discarded — not at `inner/file.txt` as the claim states; the
`skip_parent_levels = 0` half of the claim does hold. -/
theorem skip_levels_moves_whole_entry :
    finalFileDests 1 []
      [FsEntry.dir ("outer".toList) [["inner".toList, "file.txt".toList]]] =
      [["outer".toList, "inner".toList, "file.txt".toList]] ∧
    finalFileDests 0 ("nm".toList)
      [FsEntry.dir ("outer".toList) [["inner".toList, "file.txt".toList]]] =
      [["nm".toList, "outer".toList, "inner".toList, "file.txt".toList]] ∧
    finalFileDests 3 []
      [FsEntry.dir ("outer".toList) [["inner".toList, "file.txt".toList]]] =
      [["outer".toList, "inner".toList, "file.txt".toList]] :=
  ⟨rfl, rfl, rfl⟩

/-- Helper: a single recognized archive whose extraction persistently
fails is re-found by every iteration — each step reproduces the same
directory state. -/
theorem recursive_loop_spins :
    ∀ n, unzipIter (fun _ => (false, [])) n
      [{ name := "a.rar".toList, recognized := true }] =
      some [{ name := "a.rar".toList, recognized := true }] := by
  intro n
  induction n with
  | zero => rfl
  | succ k ih =>
    have hstep : unzipStep (fun _ => (false, []))
        [{ name := "a.rar".toList, recognized := true }] =
        some [{ name := "a.rar".toList, recognized := true }] := rfl
    rw [unzipIter, hstep]
    exact ih

/-- Claim C3 (counterexample): the RecursiveExtract loop does not always
terminate — a recognized archive whose extraction persistently fails is
re-found by every iteration (`continue` leaves it in place and
`has_archives` is already set), so the `while True:` loop never breaks
and the termination proposition for that state is false. -/
theorem recursive_loop_nontermination :
    unzipTerminates (fun _ => (false, []))
      [{ name := "a.rar".toList, recognized := true }] = False :=
  eq_false (fun hterm => by
    obtain ⟨n, hn⟩ := hterm
    rw [recursive_loop_spins n] at hn
    cases hn)

/-- Claim C3 (amended): the loop breaks as soon as an iteration finds no
recognized archive (and when the staging directory is empty), and a unit
whose extraction fails is skipped within the iteration while the
remaining units are still processed — but the failed unit stays in the
directory, so termination is not guaranteed (see the counterexample). -/
theorem recursive_loop_stop_and_skip (env : UnzipEnv) :
    (∀ files : List TFile, files.all (fun f => !f.recognized) = true →
      unzipStep env files = none) ∧
    (∀ (f : TFile) (rest : List TFile), f.recognized = true → (env f).1 = false →
      unzipStep env (f :: rest) = some (f :: rest.flatMap (stepFile env))) := by
  constructor
  · intro files hall
    by_cases hnil : files = []
    · simp [unzipStep, hnil]
    · have hany : files.any (fun f => f.recognized) = false := by
        rw [List.any_eq_false]
        intro f hf
        have hnf := List.all_eq_true.mp hall f hf
        simp at hnf
        simp [hnf]
      unfold unzipStep
      rw [if_neg hnil, hany]
      rfl
  · intro f rest hrec henv
    unfold unzipStep
    rw [if_neg (by simp)]
    have hany : (f :: rest).any (fun g => g.recognized) = true := by simp [hrec]
    rw [hany]
    simp [stepFile, hrec, henv]

/-- Witness for C3's amended theorem: an unrecognized leftover file stops
the loop, and a failing recognized unit is kept while the iteration goes
on over the rest. -/
theorem recursive_loop_stop_and_skip_witness :
    unzipStep (fun _ => (false, []))
      [{ name := "b.txt".toList, recognized := false }] = none ∧
    unzipStep (fun _ => (false, []))
      [{ name := "a.rar".toList, recognized := true }] =
      some [{ name := "a.rar".toList, recognized := true }] :=
  ⟨(recursive_loop_stop_and_skip (fun _ => (false, []))).1
      [{ name := "b.txt".toList, recognized := false }] (by decide),
   (recursive_loop_stop_and_skip (fun _ => (false, []))).2
      { name := "a.rar".toList, recognized := true } [] rfl rfl⟩

theorem alistLookup_append_single (b k : Name) (v : ArchiveInfoM) :
    ∀ l : List (Name × ArchiveInfoM),
      alistLookup b (l ++ [(k, v)]) =
        if (alistLookup b l).isSome then alistLookup b l
        else if k = b then some v else none := by
  intro l
  induction l with
  | nil => simp [alistLookup]
  | cons kv rest ih =>
    rcases kv with ⟨k', v'⟩
    by_cases hk : k' = b
    · simp [alistLookup, hk]
    · simp only [List.cons_append, alistLookup, if_neg hk]
      exact ih

theorem alistAddPart_typ (k p b : Name) (u : ArchiveInfoM) :
    ∀ l : List (Name × ArchiveInfoM),
      alistLookup b (alistAddPart k p l) = some u →
      ∃ u', alistLookup b l = some u' ∧ u.typ = u'.typ := by
  intro l
  induction l with
  | nil => intro h; simp [alistAddPart, alistLookup] at h
  | cons kv rest ih =>
    rcases kv with ⟨k', v'⟩
    intro h
    by_cases hkk : k' = k
    · rw [alistAddPart, if_pos hkk] at h
      by_cases hkb : k' = b
      · rw [alistLookup, if_pos hkb] at h
        refine ⟨v', by rw [alistLookup, if_pos hkb], ?_⟩
        cases h
        rfl
      · rw [alistLookup, if_neg hkb] at h
        exact ⟨u, by rw [alistLookup, if_neg hkb]; exact h, rfl⟩
    · rw [alistAddPart, if_neg hkk] at h
      by_cases hkb : k' = b
      · rw [alistLookup, if_pos hkb] at h
        exact ⟨v', by rw [alistLookup, if_pos hkb], by cases h; rfl⟩
      · rw [alistLookup, if_neg hkb] at h
        obtain ⟨u', hu', ht⟩ := ih h
        exact ⟨u', by rw [alistLookup, if_neg hkb]; exact hu', ht⟩

theorem prepareStep_inv (pw : Name) (acc : List (Name × ArchiveInfoM)) (f : SFile)
    (hinv : ∀ b u, alistLookup b acc = some u → u.typ ≠ ArchiveType.unknown) :
    ∀ b u, alistLookup b (prepareStep pw acc f) = some u → u.typ ≠ ArchiveType.unknown := by
  intro b u h
  rcases hl : alistLookup (baseNameOf f.path) acc with _ | v
  · simp only [prepareStep, hl] at h
    by_cases ht : detectArchiveType f.content = ArchiveType.unknown
    · rw [if_pos ht] at h
      exact hinv b u h
    · rw [if_neg ht, alistLookup_append_single] at h
      rcases hb : alistLookup b acc with _ | u'
      · rw [hb] at h
        simp only [Option.isSome_none, Bool.false_eq_true, if_false] at h
        by_cases hkb : baseNameOf f.path = b
        · rw [if_pos hkb] at h
          cases h
          exact ht
        · rw [if_neg hkb] at h
          cases h
      · rw [hb] at h
        simp only [Option.isSome_some, if_true, Option.some.injEq] at h
        rw [h] at hb
        exact hinv b u hb
  · simp only [prepareStep, hl] at h
    obtain ⟨u', hu', htyp⟩ := alistAddPart_typ _ _ _ _ acc h
    rw [htyp]
    exact hinv b u' hu'

theorem prepare_foldl_inv (pw : Name) :
    ∀ (fs : List SFile) (acc : List (Name × ArchiveInfoM)),
      (∀ b u, alistLookup b acc = some u → u.typ ≠ ArchiveType.unknown) →
      ∀ b u, alistLookup b (fs.foldl (prepareStep pw) acc) = some u →
        u.typ ≠ ArchiveType.unknown := by
  intro fs
  induction fs with
  | nil => intro acc hinv; exact hinv
  | cons f rest ih =>
    intro acc hinv
    exact ih (prepareStep pw acc f) (prepareStep_inv pw acc f hinv)

theorem foldl_copy_filter (l : List Name) :
    ∀ acc : List Name,
      l.foldl (fun acc p => if isMultipartArchive p then acc else acc ++ [p]) acc =
        acc ++ l.filter (fun q => !(isMultipartArchive q)) := by
  induction l with
  | nil => intro acc; simp
  | cons p rest ih =>
    intro acc
    by_cases hm : isMultipartArchive p = true
    · simp only [List.foldl_cons, if_pos hm, List.filter_cons, hm]
      rw [ih]
      rfl
    · rw [Bool.not_eq_true] at hm
      simp only [List.foldl_cons, hm, Bool.false_eq_true, if_false, List.filter_cons]
      rw [ih (acc ++ [p])]
      simp

/-- Claim C1 (counterexample): a group whose (only, hence first) file is
classified Unknown does not become an ArchiveUnit at all —
`_prepare_archive_info` returns an empty mapping for it, so its files
never reach the plain-copy branch of StagingExtract. -/
theorem unknown_group_yields_no_unit :
    detectArchiveType (some [0x61]) = ArchiveType.unknown ∧
    prepareArchiveInfo [] [{ path := "a.txt".toList, content := some [0x61] }] = [] :=
  ⟨rfl, rfl⟩

/-- Claim C1 (amended): `_prepare_archive_info` creates a unit only when
the first file of a group has a recognized format, so no ArchiveUnit
ever carries format Unknown; the plain-copy branch of
`_extract_to_target_temp` — unreachable from Collecting — would copy
exactly the constituent files that do not match a multi-part naming
convention, skipping the rest. -/
theorem prepare_drops_unknown_groups (pw : Name) (files : List SFile) :
    (∀ (b : Name) (u : ArchiveInfoM),
      alistLookup b (prepareArchiveInfo pw files) = some u →
      u.typ ≠ ArchiveType.unknown) ∧
    (∀ u : ArchiveInfoM, u.typ = ArchiveType.unknown →
      extractToTargetTemp u = u.parts.filter (fun q => !(isMultipartArchive q))) := by
  constructor
  · intro b u h
    exact prepare_foldl_inv pw _ [] (fun b u hu => by simp [alistLookup] at hu) b u h
  · intro u hu
    unfold extractToTargetTemp
    rw [if_pos hu, foldl_copy_filter]
    rfl

/-- Witness for C1's amended theorem: a hypothetical Unknown unit with a
plain file and a 7-zip part file copies only the plain file. -/
theorem prepare_drops_unknown_groups_witness :
    extractToTargetTemp
      { path := "a".toList, typ := ArchiveType.unknown,
        parts := ["a.txt".toList, "a.7z.001".toList], password := [] } =
      (["a.txt".toList, "a.7z.001".toList].filter (fun q => !(isMultipartArchive q))) :=
  (prepare_drops_unknown_groups [] []).2
    { path := "a".toList, typ := ArchiveType.unknown,
      parts := ["a.txt".toList, "a.7z.001".toList], password := [] } rfl


/-- Claim C9 (counterexample): `part1.rar` matches the collector's
trigger (`startswith('part') and endswith('.rar')`) but contains none of
the substrings base-name derivation handles, so `rindex('.part')` raises
`ValueError` instead of collecting the file as a singleton list of
itself. -/
theorem fragment_collection_raises_on_part_rar :
    assembleParts ("part1.rar".toList) [("part1.rar".toList)] = none := rfl

/-- Claim C9 (amended): fragment assembly returns `[f]` for a file
matching no multi-part pattern; when base-name derivation succeeds the
collector returns exactly the matching entries of the file's own
directory, lexicographically sorted; and when derivation fails (e.g.
`part1.rar`) the collector raises instead. -/
theorem fragment_collection_behavior :
    (∀ (f : Name) (sib : List Name), isMultipartArchive f = false →
      assembleParts f sib = some [f]) ∧
    (∀ (f : Name) (sib : List Name) (base : Name),
      deriveBaseName (lowerName f) = some base →
      ∃ l, collectMultipartArchive f sib = some l ∧
        l.Perm (sib.filter (partFilterCond base)) ∧
        List.Pairwise LexLe l ∧
        ∀ q ∈ l, q ∈ sib ∧ partFilterCond base q = true) ∧
    (∀ (f : Name) (sib : List Name), deriveBaseName (lowerName f) = none →
      collectMultipartArchive f sib = none) := by
  refine ⟨?_, ?_, ?_⟩
  · intro f sib h
    simp [assembleParts, h]
  · intro f sib base hbase
    refine ⟨List.insertionSort LexLe (sib.filter (partFilterCond base)), ?_, ?_, ?_, ?_⟩
    · simp [collectMultipartArchive, hbase]
    · exact List.perm_insertionSort LexLe _
    · exact List.sorted_insertionSort LexLe _
    · intro q hq
      have hq' : q ∈ sib.filter (partFilterCond base) :=
        (List.perm_insertionSort LexLe _).mem_iff.mp hq
      have := List.mem_filter.mp hq'
      exact ⟨this.1, this.2⟩
  · intro f sib h
    simp [collectMultipartArchive, h]

/-- Witness for C9's amended theorem: a plain file collects as itself,
and a name with the loose `part`-prefix pattern makes the collector
raise. -/
theorem fragment_collection_behavior_witness :
    assembleParts ("b.txt".toList) [("b.txt".toList)] = some [("b.txt".toList)] ∧
    collectMultipartArchive ("partx.rar".toList) [] = none :=
  ⟨fragment_collection_behavior.1 ("b.txt".toList) [("b.txt".toList)] rfl,
   fragment_collection_behavior.2.2 ("partx.rar".toList) [] rfl⟩

/-- Claim C6 (counterexample): with the `VAMVIDEO` database type, an
item whose identity (and source path) is already recorded is still
re-collected when the generated target folder is missing, and its
re-processing performs an additional Ledger write. -/
theorem rerun_writes_again_for_vamvideo :
    collectKeeps DatabaseType.vamvideo
      { bySrc := fun _ => true, byId := fun _ => true } (fun _ => none) (fun _ => none)
      [{ name := "X".toList, isDir := true }] =
      [{ name := "X".toList, isDir := true }] ∧
    runLedgerSaves DatabaseType.vamvideo
      { bySrc := fun _ => true, byId := fun _ => true } (fun _ => none) (fun _ => none)
      [{ name := "X".toList, isDir := true }]
      (fun _ => [FsEntry.file ("f".toList)])
      (fun _ => { skipParentLevels := 0, folderName := "X".toList, dstExists := false,
                  itemExists := fun _ => false, moveOk := fun _ => true }) [] = 1 :=
  ⟨rfl, rfl⟩

/-- Claim C6 (amended): for every database type other than `VAMVIDEO`,
once every source item's identity is recorded a second run skips every
item during collection and performs zero additional Ledger writes; for
`VAMVIDEO` the skip additionally requires the completeness check on the
generated target folder (see the counterexample). -/
theorem rerun_idempotent_ledger (db : DatabaseType) (led : Ledger)
    (title? : Name → Option Name) (targetFs : Name → Option (List Name))
    (items : List SrcItem) (staging : Name → List FsEntry)
    (params : Name → MoveParams) (prevTarget : List (List Name))
    (hdb : db ≠ DatabaseType.vamvideo)
    (hrec : ∀ it ∈ items, led.byId (getPathId it) = true) :
    collectKeeps db led title? targetFs items = [] ∧
    runLedgerSaves db led title? targetFs items staging params prevTarget = 0 := by
  have hkeep : collectKeeps db led title? targetFs items = [] := by
    unfold collectKeeps
    rw [List.filter_eq_nil_iff]
    intro it hit
    have hid := hrec it hit
    have hall : ∀ fn folder?, isAllProcessed db fn folder? = true := by
      intro fn folder?
      unfold isAllProcessed
      rw [if_pos hdb]
    simp [hid, hall]
  refine ⟨hkeep, ?_⟩
  unfold runLedgerSaves
  rw [hkeep]
  rfl

/-- Witness for C6's amended theorem: one fully recorded item under the
`LOIBUS` database type is skipped and nothing is written. -/
theorem rerun_idempotent_ledger_witness :
    collectKeeps DatabaseType.loibus
      { bySrc := fun _ => true, byId := fun _ => true } (fun _ => none) (fun _ => none)
      [{ name := "X".toList, isDir := true }] = [] ∧
    runLedgerSaves DatabaseType.loibus
      { bySrc := fun _ => true, byId := fun _ => true } (fun _ => none) (fun _ => none)
      [{ name := "X".toList, isDir := true }]
      (fun _ => [FsEntry.file ("f".toList)])
      (fun _ => { skipParentLevels := 0, folderName := "X".toList, dstExists := false,
                  itemExists := fun _ => false, moveOk := fun _ => true }) [] = 0 :=
  rerun_idempotent_ledger DatabaseType.loibus
    { bySrc := fun _ => true, byId := fun _ => true } (fun _ => none) (fun _ => none)
    [{ name := "X".toList, isDir := true }]
    (fun _ => [FsEntry.file ("f".toList)])
    (fun _ => { skipParentLevels := 0, folderName := "X".toList, dstExists := false,
                itemExists := fun _ => false, moveOk := fun _ => true }) []
    (by decide) (fun _ _ => rfl)
